import Mathlib

/-!
Shallow embedding of `src/boarding_sequence_generator.py`
(class `BusBoardingSequenceGenerator` and the `Booking` dataclass).

Strings are modelled as `List Char`.  Python's file handle is modelled as
`Option (List (List Char))`: `none` is a missing file (`FileNotFoundError`),
`some lines` is the file's lines (without their trailing newline, which
`line.strip()` would discard anyway and which cannot affect the
`'Booking_ID' in lines[0]` substring test).  Exceptions raised by a load
are modelled by an `Option LoadError` component of the result, paired with
the final state of `self.bookings` so that the state left behind by a
failed load is observable.
-/

namespace BusBoarding

/-- The characters Python's `str.strip()` removes (ASCII whitespace). -/
def isPySpace (c : Char) : Bool :=
  c = ' ' || c = '\t' || c = '\n' || c = '\r' || c = '\x0b' || c = '\x0c'

/-- Python `s.strip()`: drop leading and trailing whitespace. -/
def pyStrip (s : List Char) : List Char :=
  ((s.dropWhile isPySpace).reverse.dropWhile isPySpace).reverse

/-- Python `s.split(sep)` for a one-character separator: split on every
occurrence of `sep`, keeping empty pieces; `n` separators yield `n + 1`
pieces, so the result is never empty (`"".split(',') == ['']`). -/
def pySplit (sep : Char) : List Char → List (List Char)
  | [] => [[]]
  | c :: rest =>
    if c = sep then [] :: pySplit sep rest
    else
      match pySplit sep rest with
      | [] => [[c]]
      | p :: ps => (c :: p) :: ps

/-- Decimal value of a digit string, accumulated left to right
(what Python's `int` computes on the matched digit group). -/
def digitsToNat (ds : List Char) : Nat :=
  ds.foldl (fun acc c => acc * 10 + (c.toNat - '0'.toNat)) 0

/-- `re.search(r'(\d+)', seat)`: the first maximal run of decimal digits
in the string, if any. -/
def firstDigitRun : List Char → Option (List Char)
  | [] => none
  | c :: rest =>
    if c.isDigit then some (c :: rest.takeWhile Char.isDigit)
    else firstDigitRun rest

/-- `BusBoardingSequenceGenerator.parse_seat_distance` (lines 33-47):
`int(match.group(1))` when the regex finds a digit run, else `0`.
A total function: it never fails on any string input. -/
def parse_seat_distance (seat : List Char) : Nat :=
  match firstDigitRun seat with
  | some run => digitsToNat run
  | none => 0

/-- The `Booking` dataclass (lines 13-18). `booking_id` comes from Python's
`int` and may be negative; `min_distance` is a parse result, hence a `Nat`. -/
structure Booking where
  booking_id : Int
  seats : List (List Char)
  min_distance : Nat
deriving Repr, DecidableEq

/-- `max(distances) if distances else 0` (lines 77 and 101): Python's
built-in `max` on a non-empty list, with `0` for the empty list. -/
def pyMaxNat : List Nat → Nat
  | [] => 0
  | x :: xs => xs.foldl max x

/-- Construction of one booking from `(booking_id, seats_string)`
(lines 97-103, identical to lines 73-79 of the file loader):
`seats = [seat.strip() for seat in seats_string.split(',')]`,
`min_distance = max(distances) if distances else 0`. -/
def mkBooking (booking_id : Int) (seats_string : List Char) : Booking :=
  let seats := (pySplit ',' seats_string).map pyStrip
  let distances := seats.map parse_seat_distance
  { booking_id := booking_id, seats := seats, min_distance := pyMaxNat distances }

/-- `load_bookings_from_data` (lines 87-104): replaces the collection with
one booking per input pair.  Total: no branch of the loop can fail. -/
def load_bookings_from_data (booking_data : List (Int × List Char)) : List Booking :=
  booking_data.map (fun p => mkBooking p.1 p.2)

/-- Python `int(s)` on the identifier field: strip surrounding whitespace,
allow one optional sign, then require a non-empty all-digit string
(digit-separator underscores are not modelled; no input here uses them).
`none` models the `ValueError` that `int` raises otherwise. -/
def pyInt (s : List Char) : Option Int :=
  match pyStrip s with
  | '+' :: ds =>
    if !ds.isEmpty && ds.all Char.isDigit then some (digitsToNat ds : Nat) else none
  | '-' :: ds =>
    if !ds.isEmpty && ds.all Char.isDigit then some (-(digitsToNat ds : Nat) : Int) else none
  | ds =>
    if !ds.isEmpty && ds.all Char.isDigit then some (digitsToNat ds : Nat) else none

/-- The two exceptions `load_bookings_from_file` can raise (lines 82-85):
the re-raised `FileNotFoundError`, and the generic `Exception` wrapping
every other error of the read loop (in particular the `ValueError` from
`int(parts[0])` on a non-integer identifier). -/
inductive LoadError where
  | fileNotFound
  | genericError
deriving Repr, DecidableEq

/-- Does `pat` occur as a contiguous run at the front of `s`? -/
def startsWithSeq : List Char → List Char → Bool
  | [], _ => true
  | _ :: _, [] => false
  | p :: ps, c :: cs => p = c && startsWithSeq ps cs

/-- Python `pat in s` substring containment. -/
def containsSeq (pat : List Char) : List Char → Bool
  | [] => startsWithSeq pat []
  | c :: rest => startsWithSeq pat (c :: rest) || containsSeq pat rest

/-- `start_idx = 1 if lines and 'Booking_ID' in lines[0] else 0` (line 63). -/
def headerSkip (lines : List (List Char)) : Nat :=
  match lines with
  | [] => 0
  | first :: _ => if containsSeq "Booking_ID".toList first then 1 else 0

/-- One iteration of the read loop (lines 65-80) acting on the accumulated
`self.bookings`: strip the line, skip it when blank, split on tabs, skip it
when it has fewer than two fields, parse the identifier (failure aborts the
load with the generic error, leaving the accumulator as it was), and append
the booking built exactly as in `mkBooking`. -/
def processLine (bs : List Booking) (rawLine : List Char) :
    List Booking × Option LoadError :=
  if (pyStrip rawLine).isEmpty then (bs, none)
  else
    match pySplit '\t' (pyStrip rawLine) with
    | p0 :: p1 :: _ =>
      match pyInt p0 with
      | some booking_id => (bs ++ [mkBooking booking_id p1], none)
      | none => (bs, some LoadError.genericError)
    | _ => (bs, none)

/-- The read loop over the remaining lines: stops at the first failing line,
returning the bookings accumulated so far together with the error. -/
def processLines (bs : List Booking) : List (List Char) → List Booking × Option LoadError
  | [] => (bs, none)
  | line :: rest =>
    match processLine bs line with
    | (bs2, none) => processLines bs2 rest
    | (bs2, some e) => (bs2, some e)

/-- `load_bookings_from_file` (lines 49-85) as a transformer of the
`self.bookings` state.  Line 56 (`self.bookings = []`) discards the previous
collection before the file is even opened, so the result ignores `prev`;
a missing file leaves the cleared collection and raises `fileNotFound`. -/
def load_bookings_from_file (prev : List Booking)
    (file : Option (List (List Char))) : List Booking × Option LoadError :=
  match file with
  | none => ([], some LoadError.fileNotFound)
  | some lines => processLines [] (lines.drop (headerSkip lines))

/-- Sort key comparison of line 119, `key=lambda x: (-x.min_distance,
x.booking_id)`: lexicographic `≤` on the key tuples, as Python's tuple
comparison performs it. -/
def keyLe (a b : Booking) : Bool :=
  decide ((-(a.min_distance : Int)) < -(b.min_distance : Int))
  || (decide ((-(a.min_distance : Int)) = -(b.min_distance : Int))
      && decide (a.booking_id ≤ b.booking_id))

/-- `sorted(self.bookings, key=...)` (lines 117-120): Python's `sorted` is a
stable merge sort, modelled by `List.mergeSort`. -/
def sortBookings (bookings : List Booking) : List Booking :=
  bookings.mergeSort keyLe

/-- The numbering loop `for i, booking in enumerate(sorted_bookings, 1)`
(lines 123-125). -/
def numberFrom : Nat → List Booking → List (Nat × Int)
  | _, [] => []
  | i, b :: rest => (i, b.booking_id) :: numberFrom (i + 1) rest

/-- `generate_boarding_sequence` (lines 106-127): empty collection short-cut,
then the sorted bookings numbered from 1. -/
def generate_boarding_sequence (bookings : List Booking) : List (Nat × Int) :=
  if bookings.isEmpty then []
  else numberFrom 1 (sortBookings bookings)

/-- One entry of the `get_boarding_details` output dictionary (lines 143-148). -/
structure BoardingDetail where
  sequence : Nat
  booking_id : Int
  seats : List (List Char)
  furthest_seat_distance : Nat
deriving Repr, DecidableEq

/-- `booking_dict = {b.booking_id: b for b in self.bookings}` (line 139),
looked up at one key: a later booking with the same id overwrites an earlier
one, so the lookup returns the last matching booking; `none` models the
`KeyError` an absent key would raise. -/
def dictLookup (bs : List Booking) (id : Int) : Option Booking :=
  (bs.filter (fun b => decide (b.booking_id = id))).getLast?

/-- The loop of lines 141-148 over the generated sequence. -/
def detailsFor (bookings : List Booking) :
    List (Nat × Int) → Option (List BoardingDetail)
  | [] => some []
  | (seq_num, id) :: rest =>
    match dictLookup bookings id with
    | none => none
    | some b =>
      match detailsFor bookings rest with
      | none => none
      | some ds =>
        some ({ sequence := seq_num, booking_id := id, seats := b.seats,
                furthest_seat_distance := b.min_distance } :: ds)

/-- `get_boarding_details` (lines 129-150). -/
def get_boarding_details (bookings : List Booking) : Option (List BoardingDetail) :=
  detailsFor bookings (generate_boarding_sequence bookings)

/-- The state owned by one generator instance: just `self.bookings`. -/
structure GeneratorState where
  bookings : List Booking
deriving Repr, DecidableEq

/-- `generate_boarding_sequence` as a method on the instance state: its body
(lines 106-127) reads `self.bookings` once, never assigns to `self`, and
`sorted` returns a fresh list, so the state component is returned unchanged. -/
def generateMethod (s : GeneratorState) : GeneratorState × List (Nat × Int) :=
  (s, generate_boarding_sequence s.bookings)

/-! ### The sort comparison is a total preorder -/

theorem keyLe_total (a b : Booking) : keyLe a b || keyLe b a := by
  simp only [keyLe, Bool.or_eq_true, Bool.and_eq_true, decide_eq_true_eq]
  omega

theorem keyLe_trans (a b c : Booking) (hab : keyLe a b) (hbc : keyLe b c) :
    keyLe a c := by
  simp only [keyLe, Bool.or_eq_true, Bool.and_eq_true, decide_eq_true_eq] at hab hbc ⊢
  omega

theorem sortBookings_perm (bookings : List Booking) :
    (sortBookings bookings).Perm bookings :=
  List.mergeSort_perm bookings keyLe

theorem sortBookings_pairwise (bookings : List Booking) :
    (sortBookings bookings).Pairwise (fun a b => keyLe a b) :=
  List.sorted_mergeSort keyLe_trans keyLe_total bookings

/-! ### The numbering loop -/

theorem numberFrom_map_fst (l : List Booking) :
    ∀ i, (numberFrom i l).map Prod.fst = List.range' i l.length := by
  induction l with
  | nil => intro i; rfl
  | cons b rest ih => intro i; simp [numberFrom, List.range'_succ, ih]

theorem numberFrom_map_snd (l : List Booking) :
    ∀ i, (numberFrom i l).map Prod.snd = l.map Booking.booking_id := by
  induction l with
  | nil => intro i; rfl
  | cons b rest ih => intro i; simp [numberFrom, ih]

theorem numberFrom_length (l : List Booking) :
    ∀ i, (numberFrom i l).length = l.length := by
  induction l with
  | nil => intro i; rfl
  | cons b rest ih => intro i; simp [numberFrom, ih]

theorem generate_map_snd (bookings : List Booking) :
    (generate_boarding_sequence bookings).map Prod.snd
      = (sortBookings bookings).map Booking.booking_id := by
  match bookings with
  | [] => simp [generate_boarding_sequence, sortBookings]
  | b :: rest => simp [generate_boarding_sequence, numberFrom_map_snd]

theorem generate_map_fst (bookings : List Booking) :
    (generate_boarding_sequence bookings).map Prod.fst
      = List.range' 1 bookings.length := by
  match bookings with
  | [] => rfl
  | b :: rest =>
    simp only [generate_boarding_sequence, List.isEmpty_cons, Bool.false_eq_true,
      if_false, numberFrom_map_fst]
    rw [(sortBookings_perm (b :: rest)).length_eq]

theorem generate_length (bookings : List Booking) :
    (generate_boarding_sequence bookings).length = bookings.length := by
  match bookings with
  | [] => rfl
  | b :: rest =>
    simp only [generate_boarding_sequence, List.isEmpty_cons, Bool.false_eq_true,
      if_false, numberFrom_length]
    exact (sortBookings_perm (b :: rest)).length_eq

/-- Claim C1: the ordering operation sorts the booking collection on the key
(−priority, identifier) ascending: whenever booking `a` appears before
booking `b` in the sorted order underlying the output, either
`a.min_distance > b.min_distance`, or the distances are exactly equal and
`a.booking_id ≤ b.booking_id`; and the output of
`generate_boarding_sequence` lists the booking identifiers in exactly that
sorted order. -/
theorem C1_order_respects_sort_key (bookings : List Booking) :
    (sortBookings bookings).Pairwise (fun a b =>
      b.min_distance < a.min_distance ∨
        (a.min_distance = b.min_distance ∧ a.booking_id ≤ b.booking_id)) ∧
    (generate_boarding_sequence bookings).map Prod.snd
      = (sortBookings bookings).map Booking.booking_id := by
  constructor
  · refine (sortBookings_pairwise bookings).imp ?_
    intro a b h
    simp only [keyLe, Bool.or_eq_true, Bool.and_eq_true, decide_eq_true_eq] at h
    omega
  · exact generate_map_snd bookings

/-- Claim C4: the ordering operation returns exactly one entry per booking
(its identifiers are a permutation of the collection's identifiers), its
sequence numbers are assigned 1-based in output order with no gaps and no
reuse (they are exactly `1, 2, ..., n`), and the empty collection yields the
empty output.  The operation is a total function, so it never fails. -/
theorem C4_sequence_numbers_complete (bookings : List Booking) :
    (generate_boarding_sequence bookings).map Prod.fst
      = List.range' 1 bookings.length ∧
    (generate_boarding_sequence bookings).length = bookings.length ∧
    ((generate_boarding_sequence bookings).map Prod.snd).Perm
      (bookings.map Booking.booking_id) ∧
    generate_boarding_sequence ([] : List Booking) = [] := by
  refine ⟨generate_map_fst bookings, generate_length bookings, ?_, rfl⟩
  rw [generate_map_snd bookings]
  exact (sortBookings_perm bookings).map Booking.booking_id

/-- Claim C8: the ordering operation is a pure, idempotent function of the
booking collection: the method leaves the instance state unchanged, its
output is a function of `s.bookings` alone, and a repeated call on the
resulting state yields identical output. -/
theorem C8_order_pure_idempotent (s : GeneratorState) :
    (generateMethod s).1 = s ∧
    (generateMethod (generateMethod s).1).2 = (generateMethod s).2 ∧
    (generateMethod s).2 = generate_boarding_sequence s.bookings :=
  ⟨rfl, rfl, rfl⟩

/-! ### The seat-distance parser -/

theorem firstDigitRun_eq_none (s : List Char) (h : ∀ c ∈ s, c.isDigit = false) :
    firstDigitRun s = none := by
  induction s with
  | nil => rfl
  | cons c rest ih =>
    simp only [firstDigitRun, h c (List.mem_cons_self c rest), Bool.false_eq_true,
      if_false]
    exact ih fun d hd => h d (List.mem_cons_of_mem c hd)

theorem parse_no_digits (s : List Char) (h : ∀ c ∈ s, c.isDigit = false) :
    parse_seat_distance s = 0 := by
  simp [parse_seat_distance, firstDigitRun_eq_none s h]

theorem takeWhile_digits_append (ds post : List Char)
    (hds : ∀ c ∈ ds, c.isDigit = true)
    (hpost : ∀ c, post.head? = some c → c.isDigit = false) :
    (ds ++ post).takeWhile Char.isDigit = ds := by
  induction ds with
  | nil =>
    cases post with
    | nil => rfl
    | cons c rest => simp [List.takeWhile_cons, hpost c rfl]
  | cons d ds ih =>
    simp only [List.cons_append, List.takeWhile_cons,
      hds d (List.mem_cons_self d ds), if_true, List.cons.injEq, true_and]
    exact ih fun c hc => hds c (List.mem_cons_of_mem d hc)

theorem firstDigitRun_append (pre run post : List Char)
    (hpre : ∀ c ∈ pre, c.isDigit = false) (hrun1 : run ≠ [])
    (hrun : ∀ c ∈ run, c.isDigit = true)
    (hpost : ∀ c, post.head? = some c → c.isDigit = false) :
    firstDigitRun (pre ++ run ++ post) = some run := by
  induction pre with
  | nil =>
    cases run with
    | nil => exact absurd rfl hrun1
    | cons d ds =>
      simp only [List.nil_append, List.cons_append, firstDigitRun,
        hrun d (List.mem_cons_self d ds), if_true, Option.some.injEq,
        List.cons.injEq, true_and]
      exact takeWhile_digits_append ds post
        (fun c hc => hrun c (List.mem_cons_of_mem d hc)) hpost
  | cons c pre ih =>
    simp only [List.cons_append, firstDigitRun,
      hpre c (List.mem_cons_self c pre), Bool.false_eq_true, if_false]
    exact ih fun d hd => hpre d (List.mem_cons_of_mem c hd)

/-- Claim C2: for every string input the seat-distance parser returns the
integer value of the first maximal run of decimal digits occurring anywhere
in the string (here: any string decomposed as non-digit characters, then a
non-empty digit run, then a remainder not starting with a digit), and
returns 0 when the string contains no digits; it is a total function, so it
never fails.  The spec's examples "A1"→1, "B20"→20, ""→0, "ABC"→0 and
"123"→123 all hold. -/
theorem C2_parse_distance_first_run (pre run post nodigits : List Char)
    (hpre : ∀ c ∈ pre, c.isDigit = false) (hrun1 : run ≠ [])
    (hrun : ∀ c ∈ run, c.isDigit = true)
    (hpost : ∀ c, post.head? = some c → c.isDigit = false)
    (hnd : ∀ c ∈ nodigits, c.isDigit = false) :
    parse_seat_distance (pre ++ run ++ post) = digitsToNat run ∧
    parse_seat_distance nodigits = 0 ∧
    parse_seat_distance "A1".toList = 1 ∧
    parse_seat_distance "B20".toList = 20 ∧
    parse_seat_distance "".toList = 0 ∧
    parse_seat_distance "ABC".toList = 0 ∧
    parse_seat_distance "123".toList = 123 := by
  refine ⟨?_, parse_no_digits nodigits hnd, by decide, by decide, rfl, by decide,
    by decide⟩
  unfold parse_seat_distance
  rw [firstDigitRun_append pre run post hpre hrun1 hrun hpost]

/-- Witness for C2 at the concrete decomposition "B" ++ "20" ++ "x" and the
digit-free string "ABC". -/
theorem C2_parse_distance_first_run_witness :
    parse_seat_distance (['B'] ++ ['2', '0'] ++ ['x'])
        = digitsToNat ['2', '0'] ∧
    parse_seat_distance ['A', 'B', 'C'] = 0 := by
  have h := C2_parse_distance_first_run ['B'] ['2', '0'] ['x'] ['A', 'B', 'C']
    (by decide) (by decide) (by decide) (by intro c hc; cases hc; decide)
    (by decide)
  exact ⟨h.1, h.2.1⟩

/-! ### The priority reduction computes a maximum -/

theorem foldl_max_spec (xs : List Nat) :
    ∀ x, x ≤ xs.foldl max x ∧ (∀ y ∈ xs, y ≤ xs.foldl max x) ∧
      (xs.foldl max x = x ∨ xs.foldl max x ∈ xs) := by
  induction xs with
  | nil => intro x; exact ⟨le_refl x, by simp, Or.inl rfl⟩
  | cons y ys ih =>
    intro x
    obtain ⟨h1, h2, h3⟩ := ih (max x y)
    simp only [List.foldl_cons]
    refine ⟨le_trans (le_max_left x y) h1, fun z hz => ?_, ?_⟩
    · rcases List.mem_cons.mp hz with rfl | hz
      · exact le_trans (le_max_right x z) h1
      · exact h2 z hz
    · rcases h3 with h3 | h3
      · rcases max_choice x y with hm | hm
        · exact Or.inl (h3.trans hm)
        · exact Or.inr (by rw [h3, hm]; exact List.mem_cons_self y ys)
      · exact Or.inr (List.mem_cons_of_mem y h3)

theorem pyMaxNat_spec (l : List Nat) (hl : l ≠ []) :
    pyMaxNat l ∈ l ∧ ∀ y ∈ l, y ≤ pyMaxNat l := by
  match l with
  | [] => exact absurd rfl hl
  | x :: xs =>
    obtain ⟨h1, h2, h3⟩ := foldl_max_spec xs x
    simp only [pyMaxNat]
    refine ⟨?_, fun y hy => ?_⟩
    · rcases h3 with h3 | h3
      · rw [h3]; exact List.mem_cons_self x xs
      · exact List.mem_cons_of_mem x h3
    · rcases List.mem_cons.mp hy with rfl | hy
      · exact h1
      · exact h2 y hy

/-- Claim C3: every booking constructed by a load operation stores as its
priority the reduction `pyMaxNat` of the parsed distances of its seat list;
for a non-empty seat list that value is itself one of the parsed distances
and an upper bound of them all — the maximum, not a sum or average — and on
an empty list the reduction does not fail: it yields 0. -/
theorem C3_priority_is_max_distance (data : List (Int × List Char))
    (b : Booking) (hb : b ∈ load_bookings_from_data data) :
    b.min_distance = pyMaxNat (b.seats.map parse_seat_distance) ∧
    (b.seats.map parse_seat_distance ≠ [] →
      b.min_distance ∈ b.seats.map parse_seat_distance ∧
      ∀ d ∈ b.seats.map parse_seat_distance, d ≤ b.min_distance) ∧
    pyMaxNat [] = 0 := by
  obtain ⟨p, hp, rfl⟩ := List.mem_map.mp hb
  exact ⟨rfl, fun hne => pyMaxNat_spec _ hne, rfl⟩

/-- Witness for C3 on the booking loaded from `(101, "A1,B1")`. -/
theorem C3_priority_is_max_distance_witness :
    (mkBooking 101 "A1,B1".toList).min_distance
      = pyMaxNat ((mkBooking 101 "A1,B1".toList).seats.map parse_seat_distance) ∧
    (mkBooking 101 "A1,B1".toList).min_distance
      ∈ (mkBooking 101 "A1,B1".toList).seats.map parse_seat_distance := by
  have h := C3_priority_is_max_distance [(101, "A1,B1".toList)]
    (mkBooking 101 "A1,B1".toList) (by simp [load_bookings_from_data])
  exact ⟨h.1, (h.2.1 (by decide)).1⟩

/-! ### Splitting and stripping -/

theorem pySplit_ne_nil (sep : Char) (s : List Char) : pySplit sep s ≠ [] := by
  induction s with
  | nil => simp [pySplit]
  | cons c rest ih =>
    simp only [pySplit]
    split
    · simp
    · cases h : pySplit sep rest with
      | nil => simp
      | cons p ps => simp

theorem mem_of_mem_pySplit (sep : Char) (s : List Char) :
    ∀ part ∈ pySplit sep s, ∀ c ∈ part, c ∈ s := by
  induction s with
  | nil =>
    intro part hp c hc
    simp only [pySplit, List.mem_singleton] at hp
    subst hp
    simp at hc
  | cons a rest ih =>
    intro part hp c hc
    by_cases ha : a = sep
    · rw [pySplit, if_pos ha] at hp
      rcases List.mem_cons.mp hp with rfl | hp
      · simp at hc
      · exact List.mem_cons_of_mem a (ih part hp c hc)
    · cases hsplit : pySplit sep rest with
      | nil => exact absurd hsplit (pySplit_ne_nil sep rest)
      | cons p ps =>
        rw [pySplit, if_neg ha, hsplit] at hp
        rcases List.mem_cons.mp hp with rfl | hp
        · rcases List.mem_cons.mp hc with rfl | hc
          · exact List.mem_cons_self c rest
          · exact List.mem_cons_of_mem a
              (ih p (by rw [hsplit]; exact List.mem_cons_self p ps) c hc)
        · exact List.mem_cons_of_mem a
            (ih part (by rw [hsplit]; exact List.mem_cons_of_mem p hp) c hc)

theorem mem_of_mem_pyStrip (s : List Char) (c : Char) (h : c ∈ pyStrip s) :
    c ∈ s := by
  unfold pyStrip at h
  rw [List.mem_reverse] at h
  have h2 := (List.dropWhile_sublist _).subset h
  rw [List.mem_reverse] at h2
  exact (List.dropWhile_sublist _).subset h2

theorem mkBooking_seats (id : Int) (s : List Char) :
    (mkBooking id s).seats = (pySplit ',' s).map pyStrip := rfl

theorem mkBooking_min_distance (id : Int) (s : List Char) :
    (mkBooking id s).min_distance
      = pyMaxNat (((pySplit ',' s).map pyStrip).map parse_seat_distance) := rfl

theorem mkBooking_seats_ne_nil (id : Int) (s : List Char) :
    (mkBooking id s).seats ≠ [] := by
  rw [mkBooking_seats]
  intro h
  exact pySplit_ne_nil ',' s (List.map_eq_nil_iff.mp h)

theorem pyMaxNat_eq_zero (l : List Nat) (h : ∀ y ∈ l, y = 0) :
    pyMaxNat l = 0 := by
  cases l with
  | nil => rfl
  | cons x xs => exact h _ (pyMaxNat_spec (x :: xs) (by simp)).1

theorem mkBooking_min_distance_zero (id : Int) (s : List Char)
    (h : ∀ c ∈ s, c.isDigit = false) : (mkBooking id s).min_distance = 0 := by
  rw [mkBooking_min_distance]
  refine pyMaxNat_eq_zero _ fun d hd => ?_
  obtain ⟨t, ht, rfl⟩ := List.mem_map.mp hd
  obtain ⟨u, hu, rfl⟩ := List.mem_map.mp ht
  exact parse_no_digits _ fun c hc =>
    h c (mem_of_mem_pySplit ',' s u hu c (mem_of_mem_pyStrip u c hc))

/-- Claim C9: loading from in-memory data is total (it is a plain function
defined on every list of pairs): it produces exactly one booking per input
pair; splitting a seats string — even an empty or digit-free one — always
yields at least one token, so a constructed booking's seat list is never
empty (the empty-list branch of the priority reduction is unreachable
through this loader), and a pair whose seats string contains no digit
yields priority 0. -/
theorem C9_load_data_total (data : List (Int × List Char)) (id : Int)
    (s : List Char) (hmem : (id, s) ∈ data)
    (hnd : ∀ c ∈ s, c.isDigit = false) :
    load_bookings_from_data data = data.map (fun p => mkBooking p.1 p.2) ∧
    (load_bookings_from_data data).length = data.length ∧
    (∀ (sep : Char) (t : List Char), pySplit sep t ≠ []) ∧
    mkBooking id s ∈ load_bookings_from_data data ∧
    (mkBooking id s).seats ≠ [] ∧
    (mkBooking id s).min_distance = 0 := by
  refine ⟨rfl, by simp [load_bookings_from_data], pySplit_ne_nil, ?_,
    mkBooking_seats_ne_nil id s, mkBooking_min_distance_zero id s hnd⟩
  exact List.mem_map.mpr ⟨(id, s), hmem, rfl⟩

/-- Witness for C9 on the single pair `(7, "ABC")`, whose seats string has
no digits. -/
theorem C9_load_data_total_witness :
    (mkBooking 7 "ABC".toList).seats ≠ [] ∧
    (mkBooking 7 "ABC".toList).min_distance = 0 := by
  have h := C9_load_data_total [(7, "ABC".toList)] 7 "ABC".toList
    (List.mem_singleton.mpr rfl) (by decide)
  exact ⟨h.2.2.2.2.1, h.2.2.2.2.2⟩

/-! ### The file loader's read loop -/

theorem processLine_cases (bs : List Booking) (line : List Char) :
    (processLine bs line = (bs, none)) ∨
    (∃ id p1, processLine bs line = (bs ++ [mkBooking id p1], none)) ∨
    processLine bs line = (bs, some LoadError.genericError) := by
  unfold processLine
  split
  · exact Or.inl rfl
  · split
    · split
      · exact Or.inr (Or.inl ⟨_, _, rfl⟩)
      · exact Or.inr (Or.inr rfl)
    · exact Or.inl rfl

theorem processLine_err (bs : List Booking) (line : List Char) (e : LoadError)
    (h : (processLine bs line).2 = some e) :
    (processLine bs line).1 = bs ∧ e = LoadError.genericError := by
  rcases processLine_cases bs line with h1 | ⟨id, p1, h1⟩ | h1 <;> rw [h1] at h ⊢
  · simp at h
  · simp at h
  · simp only [Option.some.injEq] at h
    exact ⟨rfl, h.symm⟩

theorem processLines_ne_fileNotFound (lines : List (List Char)) :
    ∀ bs, (processLines bs lines).2 ≠ some LoadError.fileNotFound := by
  induction lines with
  | nil => intro bs; simp [processLines]
  | cons line rest ih =>
    intro bs
    simp only [processLines]
    rcases hpl : processLine bs line with ⟨bs2, e⟩
    cases e with
    | none => exact ih bs2
    | some e2 =>
      have h2 := (processLine_err bs line e2 (by rw [hpl])).2
      subst h2
      simp

theorem processLines_stops_at_error (lines : List (List Char)) :
    ∀ bs, ∃ k, (processLines bs lines).1 = (processLines bs (lines.take k)).1 ∧
      (processLines bs (lines.take k)).2 = none := by
  induction lines with
  | nil => intro bs; exact ⟨0, rfl, rfl⟩
  | cons line rest ih =>
    intro bs
    rcases hpl : processLine bs line with ⟨bs2, e⟩
    cases e with
    | none =>
      obtain ⟨k, h1, h2⟩ := ih bs2
      refine ⟨k + 1, ?_, ?_⟩
      · simp only [processLines, List.take_succ_cons, hpl]
        exact h1
      · simp only [processLines, List.take_succ_cons, hpl]
        exact h2
    | some e2 =>
      have hb := (processLine_err bs line e2 (by rw [hpl])).1
      rw [hpl] at hb
      refine ⟨0, ?_, rfl⟩
      simp only [processLines, hpl, List.take_zero]
      exact hb

/-- The two-line file whose second record carries the non-integer
identifier "X"; the first line parses and is appended before the failure. -/
def badLines : List (List Char) := ["1\tA1".toList, "X\tB2".toList]

/-- Counterexample to claim C5 as stated: loading `badLines` fails with the
generic parse error, yet the collection is left non-empty — it still holds
the booking parsed from the first record, not a cleared collection. -/
theorem C5_counterexample_partial_state :
    (load_bookings_from_file [] (some badLines)).2
        = some LoadError.genericError ∧
    (load_bookings_from_file [] (some badLines)).1
      = [mkBooking 1 "A1".toList] ∧
    (load_bookings_from_file [] (some badLines)).1 ≠ [] := by decide

/-- Claim C5 (amended): each load replaces the collection — the previous
collection is discarded up front, so the result never mixes bookings of a
prior load with the new records and is entirely determined by the new file,
and a missing file leaves the collection cleared; but a failed load is not
guaranteed to leave the collection cleared: it leaves exactly the bookings
accumulated from an error-free initial segment of the processed lines. -/
theorem C5_load_replaces_no_mixing (prev : List Booking)
    (file : Option (List (List Char))) (lines : List (List Char))
    (hf : file = some lines) :
    load_bookings_from_file prev file = load_bookings_from_file [] file ∧
    (load_bookings_from_file prev none).1 = [] ∧
    ∃ k,
      (load_bookings_from_file prev file).1
        = (processLines [] ((lines.drop (headerSkip lines)).take k)).1 ∧
      (processLines [] ((lines.drop (headerSkip lines)).take k)).2 = none := by
  subst hf
  exact ⟨rfl, rfl, processLines_stops_at_error _ []⟩

/-- Witness for C5 (amended) on `badLines` with a non-trivial previous
collection. -/
theorem C5_load_replaces_no_mixing_witness :
    load_bookings_from_file [mkBooking 5 "A9".toList] (some badLines)
      = load_bookings_from_file [] (some badLines) ∧
    ∃ k,
      (load_bookings_from_file [mkBooking 5 "A9".toList] (some badLines)).1
        = (processLines [] ((badLines.drop (headerSkip badLines)).take k)).1 ∧
      (processLines [] ((badLines.drop (headerSkip badLines)).take k)).2
        = none := by
  have h := C5_load_replaces_no_mixing [mkBooking 5 "A9".toList]
    (some badLines) badLines rfl
  exact ⟨h.1, h.2.2⟩

/-- Claim C6: a record line whose stripped text splits into fewer than two
tab-separated fields is silently skipped — the loop step leaves the
accumulated bookings unchanged and raises no error — whereas a line with at
least two fields whose identifier field is not an integer makes the step
fail with the generic parse error, which the loop then surfaces for the
whole load (it stops there) rather than skipping that line. -/
theorem C6_malformed_line_handling (bs : List Booking)
    (shortLine badLine : List Char) (rest : List (List Char)) (e : LoadError)
    (hshort : (pySplit '\t' (pyStrip shortLine)).length < 2)
    (hbad : 2 ≤ (pySplit '\t' (pyStrip badLine)).length)
    (hbadInt : pyInt (pySplit '\t' (pyStrip badLine)).headI = none) :
    processLine bs shortLine = (bs, none) ∧
    processLine bs badLine = (bs, some LoadError.genericError) ∧
    ((processLine bs badLine).2 = some e →
      processLines bs (badLine :: rest) = (bs, some e)) := by
  refine ⟨?_, ?_, ?_⟩
  · unfold processLine
    split
    · rfl
    · split
      · rename_i p0 p1 tail heq
        rw [heq] at hshort
        simp only [List.length_cons] at hshort
        omega
      · rfl
  · have hemp : (pyStrip badLine).isEmpty = false := by
      cases h : (pyStrip badLine).isEmpty
      · rfl
      · exfalso
        rw [List.isEmpty_iff] at h
        rw [h] at hbad
        simp only [pySplit, List.length_cons, List.length_nil] at hbad
        omega
    rcases hs : pySplit '\t' (pyStrip badLine) with _ | ⟨p0, _ | ⟨p1, tail⟩⟩
    · exact absurd hs (pySplit_ne_nil _ _)
    · rw [hs] at hbad
      simp only [List.length_cons, List.length_nil] at hbad
      omega
    · rw [hs, List.headI_cons] at hbadInt
      simp only [processLine, hemp, Bool.false_eq_true, if_false, hs, hbadInt]
  · intro he
    have hb := (processLine_err bs badLine e he).1
    simp only [processLines]
    rcases hpl : processLine bs badLine with ⟨bs2, e2⟩
    rw [hpl] at he hb
    cases e2 with
    | none => simp at he
    | some e3 =>
      obtain rfl : e3 = e := Option.some.inj he
      show (bs2, some e3) = (bs, some e3)
      rw [show bs2 = bs from hb]

/-- Witness for C6: the one-field line "A1" is skipped; the line "X\tB2"
has two fields and a non-integer identifier, so its loop step fails and the
load surfaces the generic error. -/
theorem C6_malformed_line_handling_witness :
    processLine [] "A1".toList = ([], none) ∧
    processLine [] "X\tB2".toList = ([], some LoadError.genericError) ∧
    processLines [] ["X\tB2".toList] = ([], some LoadError.genericError) := by
  have h := C6_malformed_line_handling [] "A1".toList "X\tB2".toList []
    LoadError.genericError (by decide) (by decide) (by decide)
  exact ⟨h.1, h.2.1, h.2.2 (by rw [h.2.1])⟩

/-- Claim C7: loading from a missing file signals the `fileNotFound`
failure; a load from an existing file can never produce that failure (its
only failure mode is the generic error), and the two failure values are
distinct, so a caller can tell an absent file from a corrupt one. -/
theorem C7_not_found_distinct (prev prev2 : List Booking)
    (lines : List (List Char)) :
    (load_bookings_from_file prev none).2 = some LoadError.fileNotFound ∧
    (load_bookings_from_file prev2 (some lines)).2
      ≠ some LoadError.fileNotFound ∧
    LoadError.fileNotFound ≠ LoadError.genericError :=
  ⟨rfl, processLines_ne_fileNotFound _ [], by decide⟩

/-! ### Boarding details -/

theorem dictLookup_eq_some (bs : List Booking) (id : Int) (b : Booking)
    (h : dictLookup bs id = some b) : b ∈ bs ∧ b.booking_id = id := by
  have hm := List.mem_of_getLast?_eq_some h
  rw [List.mem_filter] at hm
  exact ⟨hm.1, of_decide_eq_true hm.2⟩

theorem dictLookup_isSome (bs : List Booking) (b : Booking) (hb : b ∈ bs) :
    (dictLookup bs b.booking_id).isSome := by
  unfold dictLookup
  rw [List.getLast?_isSome]
  intro hnil
  have hmem : b ∈ bs.filter (fun x => decide (x.booking_id = b.booking_id)) :=
    List.mem_filter.mpr ⟨hb, by simp⟩
  rw [hnil] at hmem
  exact (List.not_mem_nil b) hmem

theorem numberFrom_mem_snd (l : List Booking) :
    ∀ i p, p ∈ numberFrom i l → ∃ b ∈ l, b.booking_id = p.2 := by
  induction l with
  | nil => intro i p hp; simp [numberFrom] at hp
  | cons b rest ih =>
    intro i p hp
    simp only [numberFrom] at hp
    rcases List.mem_cons.mp hp with rfl | hp
    · exact ⟨b, List.mem_cons_self b rest, rfl⟩
    · obtain ⟨b2, hb2, hid⟩ := ih (i + 1) p hp
      exact ⟨b2, List.mem_cons_of_mem b hb2, hid⟩

theorem generate_mem_snd (bookings : List Booking) (p : Nat × Int)
    (hp : p ∈ generate_boarding_sequence bookings) :
    ∃ b ∈ bookings, b.booking_id = p.2 := by
  match bookings with
  | [] => simp [generate_boarding_sequence] at hp
  | b :: rest =>
    simp only [generate_boarding_sequence, List.isEmpty_cons, Bool.false_eq_true,
      if_false] at hp
    obtain ⟨b2, hb2, hid⟩ := numberFrom_mem_snd (sortBookings (b :: rest)) 1 p hp
    exact ⟨b2, (sortBookings_perm (b :: rest)).subset hb2, hid⟩

theorem detailsFor_spec (bookings : List Booking) (seqlist : List (Nat × Int))
    (h : ∀ p ∈ seqlist, (dictLookup bookings p.2).isSome) :
    ∃ ds, detailsFor bookings seqlist = some ds ∧
      ds.map (fun d => (d.sequence, d.booking_id)) = seqlist ∧
      ∀ d ∈ ds, ∃ b, dictLookup bookings d.booking_id = some b ∧
        d.seats = b.seats ∧ d.furthest_seat_distance = b.min_distance := by
  induction seqlist with
  | nil => exact ⟨[], rfl, rfl, by simp⟩
  | cons p rest ih =>
    obtain ⟨n, id⟩ := p
    obtain ⟨b, hb⟩ :=
      Option.isSome_iff_exists.mp (h (n, id) (List.mem_cons_self _ _))
    obtain ⟨ds, h1, h2, h3⟩ := ih fun q hq => h q (List.mem_cons_of_mem _ hq)
    refine ⟨BoardingDetail.mk n id b.seats b.min_distance :: ds, ?_, ?_, ?_⟩
    · simp only [detailsFor, hb, h1]
    · simp only [List.map_cons, h2]
    · intro d hd
      rcases List.mem_cons.mp hd with rfl | hd
      · exact ⟨b, hb, rfl, rfl⟩
      · exact h3 d hd

/-- Claim C10: for a booking collection with pairwise distinct identifiers,
the details operation succeeds and returns its entries in the same order as
the ordering operation, with identical (sequence number, identifier) pairs,
and each entry reports exactly the matching booking's seat list and its
stored priority as the furthest-seat distance. -/
theorem C10_details_match_sequence (bookings : List Booking)
    (hdist : (bookings.map Booking.booking_id).Nodup) :
    ∃ ds, get_boarding_details bookings = some ds ∧
      ds.map (fun d => (d.sequence, d.booking_id))
        = generate_boarding_sequence bookings ∧
      ∀ d ∈ ds, ∀ b ∈ bookings, b.booking_id = d.booking_id →
        d.seats = b.seats ∧ d.furthest_seat_distance = b.min_distance := by
  have hsome : ∀ p ∈ generate_boarding_sequence bookings,
      (dictLookup bookings p.2).isSome := by
    intro p hp
    obtain ⟨b, hb, hid⟩ := generate_mem_snd bookings p hp
    rw [← hid]
    exact dictLookup_isSome bookings b hb
  obtain ⟨ds, h1, h2, h3⟩ := detailsFor_spec bookings _ hsome
  refine ⟨ds, h1, h2, ?_⟩
  intro d hd b hb hbid
  obtain ⟨b2, hb2, hseats, hfurthest⟩ := h3 d hd
  obtain ⟨hb2mem, hb2id⟩ := dictLookup_eq_some bookings d.booking_id b2 hb2
  have hbb : b = b2 :=
    List.inj_on_of_nodup_map hdist hb hb2mem (by rw [hbid, hb2id])
  rw [hbb]
  exact ⟨hseats, hfurthest⟩

/-- Witness for C10 on a two-booking collection with distinct identifiers. -/
theorem C10_details_match_sequence_witness :
    ∃ ds, get_boarding_details
        (load_bookings_from_data [(101, "A1,B1".toList), (120, "A20,C2".toList)])
        = some ds ∧
      ds.map (fun d => (d.sequence, d.booking_id))
        = generate_boarding_sequence
            (load_bookings_from_data
              [(101, "A1,B1".toList), (120, "A20,C2".toList)]) ∧
      ∀ d ∈ ds,
        ∀ b ∈ load_bookings_from_data
            [(101, "A1,B1".toList), (120, "A20,C2".toList)],
          b.booking_id = d.booking_id →
          d.seats = b.seats ∧ d.furthest_seat_distance = b.min_distance :=
  C10_details_match_sequence _ (by decide)

end BusBoarding
